import Mathlib

/-!
Shallow embedding of the catalog-browsing module of `src/src/pages/Shop.tsx`
(the `Shop` component of dd-webapp).

Strings are modelled as `List Char`; JavaScript's `String.prototype.includes`,
`String.prototype.toLowerCase` and the default `Array.prototype.sort`
comparator (code-unit lexicographic order) are embedded as executable list
functions.  The pure filter logic (`availableSizes`, `filteredProducts`) is
translated directly from the source.  The fetch/cache behaviour is delegated by
the source to `@tanstack/react-query`; only its configuration constants
(`staleTime: 5 * 60 * 1000`, `retry: 1`, `retryDelay: 1000`) appear under
`src/`, so the fetch protocol itself is modelled from the spec (each such
definition says so in its doc comment).
-/

namespace Shop

/-- Strings of the embedded program: lists of characters. -/
abbrev Str := List Char

/-- One entry of a product's `sizes` array: a size label and a stock count. -/
structure SizeStock where
  size : Str
  count : Nat
deriving DecidableEq

/-- A product (`StockItem` of `@/services/api`) as used by `Shop.tsx`:
`sku`, `item_name`, `color_code`, optional `brand`, and the `sizes` array. -/
structure StockItem where
  sku : Nat
  item_name : Str
  color_code : Str
  brand : Option Str
  sizes : List SizeStock
deriving DecidableEq

/-- JavaScript `String.prototype.toLowerCase`, character by character. -/
def lowerStr (s : Str) : Str := s.map Char.toLower

/-- `strStarts hay needle`: does `hay` start with `needle`?  (Helper for
`strIncludes`; the empty needle matches everything.) -/
def strStarts : Str → Str → Bool
  | _, [] => true
  | [], _ :: _ => false
  | a :: as, b :: bs => a == b && strStarts as bs

/-- JavaScript `hay.includes(needle)`: `needle` occurs contiguously in `hay`.
`"".includes("")` is `true`. -/
def strIncludes : Str → Str → Bool
  | [], needle => needle.isEmpty
  | a :: t, needle => strStarts (a :: t) needle || strIncludes t needle

/-- The `'all'` sentinel of the `selectedSize` state. -/
def allSentinel : Str := ['a', 'l', 'l']

/-- `matchesSearch` of `Shop.tsx` lines 56-58:
`item_name.toLowerCase().includes(searchTerm.toLowerCase()) ||
 color_code.toLowerCase().includes(...) ||
 (brand && brand.toLowerCase().includes(...))`. -/
def matchesSearch (p : StockItem) (s : Str) : Bool :=
  strIncludes (lowerStr p.item_name) (lowerStr s) ||
  strIncludes (lowerStr p.color_code) (lowerStr s) ||
  (match p.brand with
   | some b => strIncludes (lowerStr b) (lowerStr s)
   | none => false)

/-- `matchesSize` of `Shop.tsx` lines 61-64:
`selectedSize === 'all' || sizes.some(z => z.size === selectedSize && z.count > 0)`. -/
def matchesSize (p : StockItem) (f : Str) : Bool :=
  f == allSentinel || p.sizes.any fun z => z.size == f && decide (0 < z.count)

/-- `filteredProducts` of `Shop.tsx` lines 51-68: `if (!products) return [];`
then `products.filter(p => matchesSearch && matchesSize)`. -/
def filteredProducts (products : Option (List StockItem)) (s f : Str) :
    List StockItem :=
  match products with
  | none => []
  | some ps => ps.filter fun p => matchesSearch p s && matchesSize p f

/-- One step of the `Set.add` loop of `availableSizes` (`Shop.tsx` lines
40-44): insert `z.size` when `z.count > 0` and the label is not already
present (JavaScript `Set` semantics: insertion order, no duplicates). -/
def addSize (acc : List Str) (z : SizeStock) : List Str :=
  if 0 < z.count then (if z.size ∈ acc then acc else acc ++ [z.size]) else acc

/-- The inner `product.sizes.forEach` loop of `availableSizes`. -/
def addProduct (acc : List Str) (p : StockItem) : List Str :=
  p.sizes.foldl addSize acc

/-- The `products.forEach` loop of `availableSizes`: all size labels with
positive count, in first-insertion order, deduplicated. -/
def collectSizes (ps : List StockItem) : List Str :=
  ps.foldl addProduct []

/-- Strict code-unit lexicographic order on strings, as used by the default
JavaScript `Array.prototype.sort` comparator. -/
def lexLt : Str → Str → Bool
  | _, [] => false
  | [], _ :: _ => true
  | a :: as, b :: bs => if a < b then true else if a = b then lexLt as bs else false

/-- Reflexive closure of `lexLt`. -/
def lexLe (a b : Str) : Bool := a == b || lexLt a b

instance lexLeDecidableRel : DecidableRel fun a b : Str => lexLe a b = true :=
  fun _ _ => inferInstance

/-- `availableSizes` of `Shop.tsx` lines 35-48: `if (!products) return [];`
then `Array.from(sizes).sort()` over the collected `Set`. -/
def availableSizes (products : Option (List StockItem)) : List Str :=
  match products with
  | none => []
  | some ps => List.insertionSort (fun a b => lexLe a b = true) (collectSizes ps)

/-- The `staleTime` configuration of the `useQuery` call (`Shop.tsx` line 23):
`5 * 60 * 1000` milliseconds (= 300 seconds). -/
def staleTimeMs : Nat := 5 * 60 * 1000

/-- The `retry` configuration of the `useQuery` call (`Shop.tsx` line 24). -/
def retryCount : Nat := 1

/-- The `retryDelay` configuration of the `useQuery` call (`Shop.tsx` line 25):
milliseconds waited between a failed attempt and its retry. -/
def retryDelayMs : Nat := 1000

/-- Status tag of the catalog store (`Idle | Loading | Success | Error`). -/
inductive Status where
  | idle : Status
  | loading : Status
  | success : Status
  | error (msg : Str) : Status
deriving DecidableEq

/-- Outcome of one invocation of the external fetch operation. -/
inductive FetchResult where
  | ok (data : List StockItem) : FetchResult
  | fail (msg : Str) : FetchResult
deriving DecidableEq

/-- Observable result of one run of the fetch protocol: final status, retained
snapshot, number of attempts made, delays waited between attempts, and the
messages handed to the error notifier. -/
structure FetchRun where
  status : Status
  snapshot : Option (List StockItem)
  attempts : Nat
  delays : List Nat
  notices : List Str
deriving DecidableEq

/-- Modelled from the spec: the fetch protocol of `CatalogStore` (§4.1), which
the source delegates to `@tanstack/react-query` (library code not under
`src/`); only its configuration constants `retry: 1` and `retryDelay: 1000`
appear in `src/src/pages/Shop.tsx`.  Attempt `idx` is made with outcome
`outcome idx`; on success the snapshot is replaced and the status becomes
`Success`; on failure, while retries remain, the store waits `retryDelayMs`
and retries; when the final attempt fails, the status becomes `Error` with
that failure's message, the previously cached snapshot `prev` is retained,
and the notifier is invoked once with the message. -/
def runFetch (outcome : Nat → FetchResult) (prev : Option (List StockItem))
    (retries idx attempts : Nat) (delays : List Nat) : FetchRun :=
  match outcome idx, retries with
  | .ok d, _ => ⟨.success, some d, attempts + 1, delays, []⟩
  | .fail _, r + 1 =>
      runFetch outcome prev r (idx + 1) (attempts + 1) (delays ++ [retryDelayMs])
  | .fail m, 0 => ⟨.error m, prev, attempts + 1, delays, [m]⟩

/-- One full fetch cycle with the retry budget configured in `Shop.tsx`
(`retry: 1`): at most two attempts. -/
def fetchOnce (outcome : Nat → FetchResult) (prev : Option (List StockItem)) :
    FetchRun :=
  runFetch outcome prev retryCount 0 0 []

/-- Modelled from the spec: `load()` of `CatalogStore` (§4.1), which the
source delegates to `@tanstack/react-query`'s cache; the staleness threshold
is the `staleTime: 5 * 60 * 1000` configuration of `src/src/pages/Shop.tsx`.
The store state is the cached snapshot with its fetch timestamp (in ms), or
`none` before the first fetch.  If a snapshot exists and its age is below
`staleTimeMs`, it is returned unchanged and no fetch happens (second
component `false`); otherwise a fetch is performed (second component `true`),
delivering `fetchData` stamped with the current time. -/
def load (fetchData : List StockItem) (now : Nat)
    (s : Option (List StockItem × Nat)) : Option (List StockItem × Nat) × Bool :=
  match s with
  | some (d, t) =>
      if now - t < staleTimeMs then (some (d, t), false)
      else (some (fetchData, now), true)
  | none => (some (fetchData, now), true)

/-- The `error` value observed by the component from `useQuery`: an identity
tag (the `useEffect` dependency array compares the error object by reference)
together with its `message`. -/
structure ErrVal where
  id : Nat
  msg : Str
deriving DecidableEq

/-- One render of the `Shop` component, as relevant to the `useEffect` of
lines 28-32: either the first render after a mount, or a subsequent re-render,
each observing the current `error` value (`none` when `isError` is false). -/
inductive REvent where
  | mount (err : Option ErrVal) : REvent
  | render (err : Option ErrVal) : REvent
deriving DecidableEq

/-- The dependency tuple `[isError, error]` of the `useEffect`. -/
def depsOf (e : REvent) : Bool × Option ErrVal :=
  match e with
  | .mount x => (x.isSome, x)
  | .render x => (x.isSome, x)

/-- The prefix of the toast message: `` `Shop error: ${error.message}` ``. -/
def toastTag : Str :=
  ['S', 'h', 'o', 'p', ' ', 'e', 'r', 'r', 'o', 'r', ':', ' ']

/-- React semantics of the `useEffect` of `Shop.tsx` lines 28-32: the effect
body runs after the render that follows a mount, and after any re-render
whose dependency tuple `[isError, error]` differs from the previous run's;
when it runs and an error is present, `toast.error` is invoked with
`` `Shop error: ${error.message}` ``.  `last` is the dependency tuple of the
previous run (`none` before any run).  Returns the toast messages in order. -/
def effGo (last : Option (Bool × Option ErrVal)) : List REvent → List Str
  | [] => []
  | e :: rest =>
      let d := depsOf e
      let fire : Bool :=
        match e with
        | .mount _ => true
        | .render _ => decide (some d ≠ last)
      let emitted : List Str :=
        if fire then
          match d.2 with
          | some v => [toastTag ++ v.msg]
          | none => []
        else []
      emitted ++ effGo (some d) rest

/-- The toast invocations produced by a sequence of renders of the `Shop`
component, starting from a fresh (never-rendered) state. -/
def notifications (events : List REvent) : List Str :=
  effGo none events

/-- Concrete outcome sequence for exercising `fetchOnce`: first attempt fails,
second succeeds. -/
def outcomeFailThenOk : Nat → FetchResult :=
  fun i => if i = 0 then FetchResult.fail ['x'] else FetchResult.ok []

/-- Concrete outcome sequence for exercising `fetchOnce`: every attempt
fails (first with message `x`, later ones with message `y`). -/
def outcomeAllFail : Nat → FetchResult :=
  fun i => FetchResult.fail (if i = 0 then ['x'] else ['y'])

theorem strIncludes_nil (h : Str) : strIncludes h [] = true := by
  cases h <;> simp [strIncludes, strStarts]

theorem lexLt_cons_iff (x y : Char) (xs ys : Str) :
    lexLt (x :: xs) (y :: ys) = true ↔ x < y ∨ (x = y ∧ lexLt xs ys = true) := by
  simp only [lexLt]
  split_ifs with h1 h2 <;> simp_all

theorem lexLt_trans {a b c : Str} (h1 : lexLt a b = true) (h2 : lexLt b c = true) :
    lexLt a c = true := by
  induction a generalizing b c with
  | nil =>
    cases b with
    | nil => simp [lexLt] at h1
    | cons y ys =>
      cases c with
      | nil => simp [lexLt] at h2
      | cons z zs => simp [lexLt]
  | cons x xs ih =>
    cases b with
    | nil => simp [lexLt] at h1
    | cons y ys =>
      cases c with
      | nil => simp [lexLt] at h2
      | cons z zs =>
        rw [lexLt_cons_iff] at h1 h2 ⊢
        rcases h1 with h1 | ⟨rfl, h1⟩
        · rcases h2 with h2 | ⟨rfl, h2⟩
          · exact Or.inl (lt_trans h1 h2)
          · exact Or.inl h1
        · rcases h2 with h2 | ⟨rfl, h2⟩
          · exact Or.inl h2
          · exact Or.inr ⟨rfl, ih h1 h2⟩

theorem lexLt_connex {a b : Str} (h : a ≠ b) :
    lexLt a b = true ∨ lexLt b a = true := by
  induction a generalizing b with
  | nil =>
    cases b with
    | nil => exact absurd rfl h
    | cons y ys => left; simp [lexLt]
  | cons x xs ih =>
    cases b with
    | nil => right; simp [lexLt]
    | cons y ys =>
      rcases lt_trichotomy x y with hxy | rfl | hxy
      · exact Or.inl ((lexLt_cons_iff _ _ _ _).mpr (Or.inl hxy))
      · have hne : xs ≠ ys := fun e => h (by rw [e])
        rcases ih hne with h' | h'
        · exact Or.inl ((lexLt_cons_iff _ _ _ _).mpr (Or.inr ⟨rfl, h'⟩))
        · exact Or.inr ((lexLt_cons_iff _ _ _ _).mpr (Or.inr ⟨rfl, h'⟩))
      · exact Or.inr ((lexLt_cons_iff _ _ _ _).mpr (Or.inl hxy))

theorem lexLe_total : ∀ a b : Str, lexLe a b = true ∨ lexLe b a = true := by
  intro a b
  by_cases h : a = b
  · subst h; left; simp [lexLe]
  · rcases lexLt_connex h with h' | h'
    · left; simp [lexLe, h']
    · right; simp [lexLe, h']

theorem lexLe_trans {a b c : Str} (h1 : lexLe a b = true) (h2 : lexLe b c = true) :
    lexLe a c = true := by
  simp only [lexLe, Bool.or_eq_true, beq_iff_eq] at h1 h2 ⊢
  rcases h1 with rfl | h1
  · exact h2
  · rcases h2 with rfl | h2
    · exact Or.inr h1
    · exact Or.inr (lexLt_trans h1 h2)

theorem lexLt_of_le_ne {a b : Str} (h : lexLe a b = true) (hne : a ≠ b) :
    lexLt a b = true := by
  simp only [lexLe, Bool.or_eq_true, beq_iff_eq] at h
  exact h.resolve_left hne

theorem mem_addSize {acc : List Str} {z : SizeStock} {l : Str} :
    l ∈ addSize acc z ↔ l ∈ acc ∨ (0 < z.count ∧ z.size = l) := by
  unfold addSize
  split_ifs with h1 h2
  · constructor
    · exact fun h => Or.inl h
    · rintro (h | ⟨-, rfl⟩)
      · exact h
      · exact h2
  · simp [List.mem_append, h1, eq_comm]
  · simp [h1]

theorem mem_foldl_addSize (zs : List SizeStock) (acc : List Str) (l : Str) :
    l ∈ zs.foldl addSize acc ↔ l ∈ acc ∨ ∃ z ∈ zs, 0 < z.count ∧ z.size = l := by
  induction zs generalizing acc with
  | nil => simp
  | cons z zs ih =>
    rw [List.foldl_cons, ih, mem_addSize]
    constructor
    · rintro ((h | h) | ⟨w, hw, h⟩)
      · exact Or.inl h
      · exact Or.inr ⟨z, List.mem_cons_self z zs, h⟩
      · exact Or.inr ⟨w, List.mem_cons_of_mem _ hw, h⟩
    · rintro (h | ⟨w, hw, h⟩)
      · exact Or.inl (Or.inl h)
      · rcases List.mem_cons.mp hw with rfl | hw'
        · exact Or.inl (Or.inr h)
        · exact Or.inr ⟨w, hw', h⟩

theorem mem_collectAux (ps : List StockItem) (acc : List Str) (l : Str) :
    l ∈ ps.foldl addProduct acc ↔
      l ∈ acc ∨ ∃ p ∈ ps, ∃ z ∈ p.sizes, 0 < z.count ∧ z.size = l := by
  induction ps generalizing acc with
  | nil => simp
  | cons p ps ih =>
    rw [List.foldl_cons, ih,
      show addProduct acc p = p.sizes.foldl addSize acc from rfl,
      mem_foldl_addSize]
    constructor
    · rintro ((h | ⟨z, hz, h⟩) | ⟨w, hw, h⟩)
      · exact Or.inl h
      · exact Or.inr ⟨p, List.mem_cons_self p ps, z, hz, h⟩
      · exact Or.inr ⟨w, List.mem_cons_of_mem _ hw, h⟩
    · rintro (h | ⟨w, hw, h⟩)
      · exact Or.inl (Or.inl h)
      · rcases List.mem_cons.mp hw with rfl | hw'
        · exact Or.inl (Or.inr h)
        · exact Or.inr ⟨w, hw', h⟩

theorem mem_collectSizes (ps : List StockItem) (l : Str) :
    l ∈ collectSizes ps ↔ ∃ p ∈ ps, ∃ z ∈ p.sizes, 0 < z.count ∧ z.size = l := by
  unfold collectSizes
  rw [mem_collectAux]
  simp

theorem nodup_addSize {acc : List Str} (h : acc.Nodup) (z : SizeStock) :
    (addSize acc z).Nodup := by
  unfold addSize
  split_ifs with h1 h2
  · exact h
  · simp [List.nodup_append, h, h2]
  · exact h

theorem nodup_foldl_addSize (zs : List SizeStock) {acc : List Str} (h : acc.Nodup) :
    (zs.foldl addSize acc).Nodup := by
  induction zs generalizing acc with
  | nil => exact h
  | cons z zs ih => exact ih (nodup_addSize h z)

theorem nodup_collectAux (ps : List StockItem) {acc : List Str} (h : acc.Nodup) :
    (ps.foldl addProduct acc).Nodup := by
  induction ps generalizing acc with
  | nil => exact h
  | cons p ps ih => exact ih (nodup_foldl_addSize p.sizes h)

theorem nodup_collectSizes (ps : List StockItem) : (collectSizes ps).Nodup :=
  nodup_collectAux ps List.nodup_nil

theorem matchesSearch_iff (p : StockItem) (s : Str) :
    matchesSearch p s = true ↔
      (s = [] ∨ strIncludes (lowerStr p.item_name) (lowerStr s) = true
        ∨ strIncludes (lowerStr p.color_code) (lowerStr s) = true
        ∨ ∃ b, p.brand = some b ∧ strIncludes (lowerStr b) (lowerStr s) = true) := by
  unfold matchesSearch
  rcases hb : p.brand with _ | b
  · simp only [Bool.or_eq_true]
    constructor
    · rintro ((h | h) | h)
      · exact Or.inr (Or.inl h)
      · exact Or.inr (Or.inr (Or.inl h))
      · simp at h
    · rintro (rfl | h | h | ⟨b, hb2, h⟩)
      · exact Or.inl (Or.inl (strIncludes_nil _))
      · exact Or.inl (Or.inl h)
      · exact Or.inl (Or.inr h)
      · simp at hb2
  · simp only [Bool.or_eq_true]
    constructor
    · rintro ((h | h) | h)
      · exact Or.inr (Or.inl h)
      · exact Or.inr (Or.inr (Or.inl h))
      · exact Or.inr (Or.inr (Or.inr ⟨b, rfl, h⟩))
    · rintro (rfl | h | h | ⟨b', hb2, h⟩)
      · exact Or.inl (Or.inl (strIncludes_nil _))
      · exact Or.inl (Or.inl h)
      · exact Or.inl (Or.inr h)
      · injection hb2 with hbb
        subst hbb
        exact Or.inr h

theorem matchesSize_iff (p : StockItem) (f : Str) :
    matchesSize p f = true ↔
      (f = allSentinel ∨ ∃ z ∈ p.sizes, z.size = f ∧ 0 < z.count) := by
  unfold matchesSize
  simp only [Bool.or_eq_true, beq_iff_eq, List.any_eq_true, Bool.and_eq_true,
    decide_eq_true_eq]

/-- Claim C1: a product of `P` is kept by `filteredProducts(P, s, f)` iff (1)
`s` is empty, or case-insensitively contained in `item_name`, `color_code`, or
(when present) `brand`, and (2) `f` is the `'all'` sentinel, or the product has
a size entry with label `f` and positive count. -/
theorem filteredProducts_keep_iff (P : List StockItem) (s f : Str) (p : StockItem) :
    p ∈ filteredProducts (some P) s f ↔
      p ∈ P ∧
      ((s = [] ∨ strIncludes (lowerStr p.item_name) (lowerStr s) = true
          ∨ strIncludes (lowerStr p.color_code) (lowerStr s) = true
          ∨ ∃ b, p.brand = some b ∧ strIncludes (lowerStr b) (lowerStr s) = true) ∧
        (f = allSentinel ∨ ∃ z ∈ p.sizes, z.size = f ∧ 0 < z.count)) := by
  show p ∈ P.filter (fun q => matchesSearch q s && matchesSize q f) ↔ _
  rw [List.mem_filter, Bool.and_eq_true, matchesSearch_iff, matchesSize_iff]

/-- Claim C4: `availableSizes(P)` is strictly sorted in ascending lexicographic
order (hence deduplicated), and a label is in it iff some product of `P` has a
size entry with that label and positive count (so a label with zero count
everywhere never appears). -/
theorem availableSizes_sorted_mem (P : List StockItem) :
    List.Pairwise (fun a b => lexLt a b = true) (availableSizes (some P)) ∧
    ∀ l : Str, l ∈ availableSizes (some P) ↔
      ∃ p ∈ P, ∃ z ∈ p.sizes, 0 < z.count ∧ z.size = l := by
  have hperm : List.Perm
      (List.insertionSort (fun a b => lexLe a b = true) (collectSizes P))
      (collectSizes P) := List.perm_insertionSort _ _
  have hnd : (collectSizes P).Nodup := nodup_collectSizes P
  have hnd2 : (availableSizes (some P)).Nodup := hperm.nodup_iff.mpr hnd
  haveI : IsTotal Str fun a b => lexLe a b = true := ⟨lexLe_total⟩
  haveI : IsTrans Str fun a b => lexLe a b = true := ⟨fun _ _ _ => lexLe_trans⟩
  have hsorted : List.Sorted (fun a b => lexLe a b = true) (availableSizes (some P)) :=
    List.sorted_insertionSort _ _
  constructor
  · exact hsorted.imp₂ (fun _ _ hab hne => lexLt_of_le_ne hab hne) hnd2
  · intro l
    have hrw : availableSizes (some P)
        = List.insertionSort (fun a b => lexLe a b = true) (collectSizes P) := rfl
    rw [hrw, hperm.mem_iff, mem_collectSizes]

/-- Claim C5: `filteredProducts(P, s, f)` is a subsequence of `P` — surviving
products keep their relative order, none is duplicated or reordered. -/
theorem filteredProducts_sublist (P : List StockItem) (s f : Str) :
    List.Sublist (filteredProducts (some P) s f) P :=
  List.filter_sublist P

/-- Claim C8: `filteredProducts` is idempotent under re-application with the
same search term and size selection, and both `filteredProducts` and
`availableSizes` return empty outputs on the empty product list. -/
theorem filteredProducts_idem_empty (P : List StockItem) (s f : Str) :
    filteredProducts (some (filteredProducts (some P) s f)) s f
        = filteredProducts (some P) s f ∧
    filteredProducts (some []) s f = [] ∧
    availableSizes (some []) = [] := by
  refine ⟨?_, rfl, rfl⟩
  show (P.filter _).filter _ = P.filter _
  rw [List.filter_filter]
  simp [Bool.and_self]

/-- Claim C9: when the product list is absent (`undefined`), both
`availableSizes` and `filteredProducts` return the empty list for every
search term and size selection. -/
theorem shop_none_safe :
    availableSizes none = [] ∧ ∀ s f : Str, filteredProducts none s f = [] :=
  ⟨rfl, fun _ _ => rfl⟩

/-- Claim C10: with the empty search term and the `'all'` size sentinel,
`filteredProducts` is the identity on the product list. -/
theorem filteredProducts_default_id (P : List StockItem) :
    filteredProducts (some P) [] allSentinel = P := by
  show P.filter _ = P
  rw [List.filter_eq_self]
  intro p _
  rw [Bool.and_eq_true]
  exact ⟨(matchesSearch_iff p []).mpr (Or.inl rfl),
    (matchesSize_iff p allSentinel).mpr (Or.inl rfl)⟩

/-- Claim C2 (evaluation of the effect at the failing scenario): a re-render
while the status is already `Error` with the same error object does not
re-invoke the toast, but a remount while in that unchanged `Error` state runs
the effect again and re-invokes it — two notifications for a single
transition into `Error`. -/
theorem toastEffect_remount_renotifies :
    notifications [REvent.mount (some ⟨0, ['b']⟩), REvent.render (some ⟨0, ['b']⟩)]
        = [toastTag ++ ['b']] ∧
    notifications [REvent.mount (some ⟨0, ['b']⟩), REvent.mount (some ⟨0, ['b']⟩)]
        = [toastTag ++ ['b'], toastTag ++ ['b']] :=
  ⟨rfl, rfl⟩

/-- Claim C3: with the configured retry budget (`retry: 1`, `retryDelay:
1000`), a run whose first attempt fails and whose second succeeds ends in
`Success` with the second attempt's data after exactly two attempts and one
1000 ms wait; a run whose two attempts both fail ends in `Error` after
exactly two attempts, with the notifier invoked exactly once. -/
theorem fetch_retry_once (o : Nat → FetchResult) (prev : Option (List StockItem))
    (m : Str) (h0 : o 0 = FetchResult.fail m) :
    (∀ d, o 1 = FetchResult.ok d →
      fetchOnce o prev = ⟨Status.success, some d, 2, [1000], []⟩) ∧
    (∀ m2, o 1 = FetchResult.fail m2 →
      fetchOnce o prev = ⟨Status.error m2, prev, 2, [1000], [m2]⟩) := by
  constructor
  · intro d h1
    simp [fetchOnce, runFetch, retryCount, retryDelayMs, h0, h1]
  · intro m2 h1
    simp [fetchOnce, runFetch, retryCount, retryDelayMs, h0, h1]

theorem fetch_retry_once_witness :
    fetchOnce outcomeFailThenOk none
        = ⟨Status.success, some [], 2, [1000], []⟩ ∧
    fetchOnce outcomeAllFail (some [])
        = ⟨Status.error ['y'], some [], 2, [1000], [['y']]⟩ :=
  ⟨(fetch_retry_once outcomeFailThenOk none ['x'] rfl).1 [] rfl,
   (fetch_retry_once outcomeAllFail (some []) ['x'] rfl).2 ['y'] rfl⟩

/-- Claim C6: a `load()` on an empty store fetches; a second `load()` whose
snapshot age is below the staleness threshold (300 s = `staleTimeMs` ms)
returns the cached snapshot without fetching; a `load()` after the window has
elapsed fetches again. -/
theorem load_staleness (d0 d1 d2 : List StockItem) (t0 t1 t2 : Nat)
    (h1 : t1 - t0 < staleTimeMs) (h2 : staleTimeMs ≤ t2 - t0) :
    load d0 t0 none = (some (d0, t0), true) ∧
    load d1 t1 (some (d0, t0)) = (some (d0, t0), false) ∧
    load d2 t2 (some (d0, t0)) = (some (d2, t2), true) := by
  refine ⟨rfl, ?_, ?_⟩
  · simp [load, h1]
  · simp [load, Nat.not_lt.mpr h2]

theorem load_staleness_witness :
    load ([] : List StockItem) 0 none = (some (([] : List StockItem), 0), true) ∧
    load ([] : List StockItem) 299999 (some ([], 0))
        = (some (([] : List StockItem), 0), false) ∧
    load ([] : List StockItem) 300000 (some ([], 0))
        = (some (([] : List StockItem), 300000), true) :=
  load_staleness [] [] [] 0 299999 300000 (by decide) (by decide)

/-- Claim C7: a fetch run in which every attempt fails (for any remaining
retry budget) retains the previously cached snapshot unchanged alongside the
`Error` status carrying the last failure's message. -/
theorem fetch_failure_keeps_snapshot (o : Nat → FetchResult)
    (prev : Option (List StockItem)) (retries idx attempts : Nat)
    (delays : List Nat) (mLast : Str)
    (hfail : ∀ i, ∃ m, o i = FetchResult.fail m)
    (hlast : o (idx + retries) = FetchResult.fail mLast) :
    (runFetch o prev retries idx attempts delays).snapshot = prev ∧
    (runFetch o prev retries idx attempts delays).status = Status.error mLast := by
  revert hlast
  induction retries generalizing idx attempts delays with
  | zero =>
    intro hlast
    rw [Nat.add_zero] at hlast
    simp [runFetch, hlast]
  | succ r ih =>
    intro hlast
    obtain ⟨m, hm⟩ := hfail idx
    have h2 : o (idx + 1 + r) = FetchResult.fail mLast := by
      rw [show idx + 1 + r = idx + (r + 1) by omega]
      exact hlast
    have hstep : runFetch o prev (r + 1) idx attempts delays
        = runFetch o prev r (idx + 1) (attempts + 1) (delays ++ [retryDelayMs]) := by
      simp [runFetch, hm]
    rw [hstep]
    exact ih (idx + 1) (attempts + 1) _ h2

theorem fetch_failure_keeps_snapshot_witness :
    (runFetch outcomeAllFail (some []) 1 0 0 []).snapshot = some [] ∧
    (runFetch outcomeAllFail (some []) 1 0 0 []).status = Status.error ['y'] :=
  fetch_failure_keeps_snapshot outcomeAllFail (some []) 1 0 0 [] ['y']
    (fun i => ⟨if i = 0 then ['x'] else ['y'], rfl⟩) rfl

end Shop
